import Mathlib

/-!
Verification of the impostormaker alignment pipeline.

Shallow embedding of `impostormaker.py`: per-image records carry the
content bounding box (`croppedbbox`, pixel coordinates, integers) and the
cropped-image pixel size (`croppedimage.size`, naturals).  Python float
division in the size-mismatch check is modelled with exact rationals
(`ℚ`); for image dimensions far below 2^50 the double-precision
comparison against 0.05 agrees with the exact rational comparison
against 1/20.  A Python `ZeroDivisionError` (and the `ValueError` of
`max([])` on an empty batch) is modelled by a dedicated result
constructor rather than a value.
-/

set_option autoImplicit false

namespace ImpostorMaker

/-- One per-image record, as consumed by `Impostor.uniformcrop`:
the content bounding box `impf.croppedbbox = (x0, y0, x2, y2)` and the
cropped image's pixel size `impf.croppedimage.size = (width, height)`. -/
structure Record where
  bbox : Int × Int × Int × Int
  size : Nat × Nat
deriving DecidableEq, Repr

/-- Outcome of `Impostor.uniformcrop`:
`emptyError` models the `ValueError` raised by `max([])` on an empty
batch, `zeroDivError` models the `ZeroDivisionError` raised by the
size-mismatch check when a maximum dimension is zero, `failure` is the
`return False` path, and `success sizes croprect` is the `return True`
path together with the state it stores (`self.sizes`, `self.croprect`). -/
inductive UCResult where
  | emptyError : UCResult
  | zeroDivError : UCResult
  | failure : UCResult
  | success : Nat × Nat → Int × Int × Int × Int → UCResult
deriving DecidableEq, Repr

/-- `MAXALLOWEDSIZEMISMATCH = 0.05` from the source, as the exact
rational 1/20. -/
def MAXALLOWEDSIZEMISMATCH : ℚ := 1 / 20

/-- `maxwidth = max([s[0] for s in sizes])` over the non-empty batch
`r :: rs` (Python `max` of a non-empty list). -/
def maxwidthOf (r : Record) (rs : List Record) : Nat :=
  (rs.map (fun t => t.size.1)).foldl max r.size.1

/-- `maxheight = max([s[1] for s in sizes])` over the non-empty batch
`r :: rs`. -/
def maxheightOf (r : Record) (rs : List Record) : Nat :=
  (rs.map (fun t => t.size.2)).foldl max r.size.2

/-- The size-mismatch loop of `uniformcrop`:
`for s in sizes: if ((maxwidth - s[0]) / maxwidth > 0.05 or
(maxheight - s[1]) / maxheight > 0.05): return False`.
Returns `none` when Python would raise `ZeroDivisionError`; the `or` is
short-circuiting, so the height ratio is only evaluated when the width
ratio test fails to fire. -/
def sizeCheck (maxwidth maxheight : Nat) : List (Nat × Nat) → Option Bool
  | [] => some true
  | s :: rest =>
    if maxwidth = 0 then none
    else if ((maxwidth : ℚ) - (s.1 : ℚ)) / (maxwidth : ℚ) > MAXALLOWEDSIZEMISMATCH then
      some false
    else if maxheight = 0 then none
    else if ((maxheight : ℚ) - (s.2 : ℚ)) / (maxheight : ℚ) > MAXALLOWEDSIZEMISMATCH then
      some false
    else sizeCheck maxwidth maxheight rest

/-- `wrect = (min([b[0] for b in bboxes]), min([b[1] ...]),
max([b[2] ...]), max([b[3] ...]))` over the non-empty batch `r :: rs`. -/
def wrectOf (r : Record) (rs : List Record) : Int × Int × Int × Int :=
  ((rs.map (fun t => t.bbox.1)).foldl min r.bbox.1,
   (rs.map (fun t => t.bbox.2.1)).foldl min r.bbox.2.1,
   (rs.map (fun t => t.bbox.2.2.1)).foldl max r.bbox.2.2.1,
   (rs.map (fun t => t.bbox.2.2.2)).foldl max r.bbox.2.2.2)

/-- `Impostor.uniformcrop`, lines 106-143 of `impostormaker.py`:
size-mismatch validation over all cropped sizes, then the shared crop
rectangle `(xcenter - xhalfsize, wrect[1], xcenter + xhalfsize, wrect[3])`
with `xcenter = int(maxwidth/2)`,
`xleftsize = max(0, xcenter - wrect[0])`,
`xrightsize = min(maxwidth, wrect[2] - xcenter)`,
`xhalfsize = max(xleftsize, xrightsize)`. -/
def uniformcrop : List Record → UCResult
  | [] => UCResult.emptyError
  | r :: rs =>
    let maxwidth := maxwidthOf r rs
    let maxheight := maxheightOf r rs
    match sizeCheck maxwidth maxheight ((r :: rs).map Record.size) with
    | none => UCResult.zeroDivError
    | some false => UCResult.failure
    | some true =>
      let wrect := wrectOf r rs
      let xcenter : Int := (maxwidth / 2 : Nat)
      let xleftsize : Int := max 0 (xcenter - wrect.1)
      let xrightsize : Int := min (maxwidth : Int) (wrect.2.2.1 - xcenter)
      let xhalfsize : Int := max xleftsize xrightsize
      UCResult.success (maxwidth, maxheight)
        (xcenter - xhalfsize, wrect.2.1, xcenter + xhalfsize, wrect.2.2.2)

/-- `xcenter = int(maxwidth/2)`: Python floor division of the
non-negative `maxwidth`, as an integer for the rectangle arithmetic. -/
def xcenterOf (r : Record) (rs : List Record) : Int :=
  (maxwidthOf r rs / 2 : Nat)

/-- `xleftsize = max(0, xcenter - wrect[0])`. -/
def xleftsizeOf (r : Record) (rs : List Record) : Int :=
  max 0 (xcenterOf r rs - (wrectOf r rs).1)

/-- `xrightsize = min(maxwidth, wrect[2] - xcenter)`. -/
def xrightsizeOf (r : Record) (rs : List Record) : Int :=
  min (maxwidthOf r rs : Int) ((wrectOf r rs).2.2.1 - xcenterOf r rs)

/-- `xhalfsize = max(xleftsize, xrightsize)`. -/
def xhalfsizeOf (r : Record) (rs : List Record) : Int :=
  max (xleftsizeOf r rs) (xrightsizeOf r rs)

/-- The crop rectangle
`(xcenter - xhalfsize, wrect[1], xcenter + xhalfsize, wrect[3])`. -/
def croprectFormula (r : Record) (rs : List Record) : Int × Int × Int × Int :=
  (xcenterOf r rs - xhalfsizeOf r rs, (wrectOf r rs).2.1,
   xcenterOf r rs + xhalfsizeOf r rs, (wrectOf r rs).2.2.2)

/-! ### Helper lemmas about Python `min`/`max` over non-empty lists -/

theorem foldl_min_le_init {α : Type} [LinearOrder α] (l : List α) (a : α) :
    l.foldl min a ≤ a := by
  induction l generalizing a with
  | nil => exact le_refl a
  | cons c cs ih => exact le_trans (ih (min a c)) (min_le_left a c)

theorem foldl_min_le_mem {α : Type} [LinearOrder α] {b : α} {l : List α}
    (h : b ∈ l) (a : α) : l.foldl min a ≤ b := by
  induction l generalizing a with
  | nil => cases h
  | cons c cs ih =>
    rcases List.mem_cons.mp h with rfl | hm
    · exact le_trans (foldl_min_le_init cs (min a b)) (min_le_right a b)
    · exact ih hm (min a c)

theorem le_foldl_min {α : Type} [LinearOrder α] {c : α} {l : List α} {a : α}
    (ha : c ≤ a) (h : ∀ b ∈ l, c ≤ b) : c ≤ l.foldl min a := by
  induction l generalizing a with
  | nil => exact ha
  | cons d ds ih =>
    exact ih (le_min ha (h d (List.mem_cons_self d ds)))
      (fun b hb => h b (List.mem_cons_of_mem d hb))

theorem le_foldl_max_init {α : Type} [LinearOrder α] (l : List α) (a : α) :
    a ≤ l.foldl max a := by
  induction l generalizing a with
  | nil => exact le_refl a
  | cons c cs ih => exact le_trans (le_max_left a c) (ih (max a c))

theorem le_foldl_max_mem {α : Type} [LinearOrder α] {b : α} {l : List α}
    (h : b ∈ l) (a : α) : b ≤ l.foldl max a := by
  induction l generalizing a with
  | nil => cases h
  | cons c cs ih =>
    rcases List.mem_cons.mp h with rfl | hm
    · exact le_trans (le_max_right a b) (le_foldl_max_init cs (max a b))
    · exact ih hm (max a c)

theorem foldl_max_le {α : Type} [LinearOrder α] {c : α} {l : List α} {a : α}
    (ha : a ≤ c) (h : ∀ b ∈ l, b ≤ c) : l.foldl max a ≤ c := by
  induction l generalizing a with
  | nil => exact ha
  | cons d ds ih =>
    exact ih (max_le ha (h d (List.mem_cons_self d ds)))
      (fun b hb => h b (List.mem_cons_of_mem d hb))

/-! ### Structure of the size-mismatch check -/

theorem sizeCheck_ne_none {mw mh : Nat} (hw : mw ≠ 0) (hh : mh ≠ 0)
    (l : List (Nat × Nat)) : sizeCheck mw mh l ≠ none := by
  induction l with
  | nil => simp [sizeCheck]
  | cons s rest ih =>
    simp only [sizeCheck, if_neg hw, if_neg hh]
    split
    · simp
    · split
      · simp
      · exact ih

theorem sizeCheck_eq_true_iff {mw mh : Nat} (hw : mw ≠ 0) (hh : mh ≠ 0)
    (l : List (Nat × Nat)) :
    sizeCheck mw mh l = some true ↔
      ∀ s ∈ l, ((mw : ℚ) - s.1) / mw ≤ MAXALLOWEDSIZEMISMATCH ∧
               ((mh : ℚ) - s.2) / mh ≤ MAXALLOWEDSIZEMISMATCH := by
  induction l with
  | nil => simp [sizeCheck]
  | cons s rest ih =>
    simp only [sizeCheck, if_neg hw, if_neg hh]
    by_cases h1 : ((mw : ℚ) - s.1) / mw > MAXALLOWEDSIZEMISMATCH
    · simp [if_pos h1, h1, not_le.mpr h1]
    · by_cases h2 : ((mh : ℚ) - s.2) / mh > MAXALLOWEDSIZEMISMATCH
      · simp [if_neg h1, if_pos h2, not_le.mpr h2]
      · simp [if_neg h1, if_neg h2, ih, not_lt.mp h1, not_lt.mp h2]

theorem sizeCheck_cons_true_pos {mw mh : Nat} {s : Nat × Nat}
    {l : List (Nat × Nat)} (h : sizeCheck mw mh (s :: l) = some true) :
    0 < mw ∧ 0 < mh := by
  by_cases hw : mw = 0
  · simp [sizeCheck, hw] at h
  · by_cases hh : mh = 0
    · simp only [sizeCheck, if_neg hw, hh, if_pos rfl] at h
      split at h <;> simp_all
    · exact ⟨Nat.pos_of_ne_zero hw, Nat.pos_of_ne_zero hh⟩

/-- Inversion: a successful `uniformcrop` run means the size check
passed, the stored sizes are the batch maxima and the stored rectangle
is the one given by the source formula. -/
theorem uniformcrop_success_inv {r : Record} {rs : List Record}
    {sz : Nat × Nat} {cr : Int × Int × Int × Int}
    (h : uniformcrop (r :: rs) = UCResult.success sz cr) :
    sizeCheck (maxwidthOf r rs) (maxheightOf r rs) ((r :: rs).map Record.size) = some true ∧
    sz = (maxwidthOf r rs, maxheightOf r rs) ∧ cr = croprectFormula r rs := by
  simp only [uniformcrop] at h
  cases hsc : sizeCheck (maxwidthOf r rs) (maxheightOf r rs) ((r :: rs).map Record.size) with
  | none => rw [hsc] at h; exact absurd h (by simp)
  | some b =>
    cases b with
    | false => rw [hsc] at h; exact absurd h (by simp)
    | true =>
      rw [hsc] at h
      simp only [UCResult.success.injEq] at h
      exact ⟨rfl, h.1.symm, h.2.symm⟩

/-- The union rectangle bounds every bounding box of the batch. -/
theorem wrectOf_le (r : Record) (rs : List Record) :
    ∀ b ∈ (r :: rs).map Record.bbox,
      (wrectOf r rs).1 ≤ b.1 ∧ (wrectOf r rs).2.1 ≤ b.2.1 ∧
      b.2.2.1 ≤ (wrectOf r rs).2.2.1 ∧ b.2.2.2 ≤ (wrectOf r rs).2.2.2 := by
  intro b hb
  rcases List.mem_map.mp hb with ⟨t, ht, rfl⟩
  rcases List.mem_cons.mp ht with rfl | hm
  · exact ⟨foldl_min_le_init _ _, foldl_min_le_init _ _,
      le_foldl_max_init _ _, le_foldl_max_init _ _⟩
  · refine ⟨?_, ?_, ?_, ?_⟩
    · show (rs.map (fun u => u.bbox.1)).foldl min r.bbox.1 ≤ t.bbox.1
      exact foldl_min_le_mem (List.mem_map_of_mem (fun u => u.bbox.1) hm) _
    · show (rs.map (fun u => u.bbox.2.1)).foldl min r.bbox.2.1 ≤ t.bbox.2.1
      exact foldl_min_le_mem (List.mem_map_of_mem (fun u => u.bbox.2.1) hm) _
    · show t.bbox.2.2.1 ≤ (rs.map (fun u => u.bbox.2.2.1)).foldl max r.bbox.2.2.1
      exact le_foldl_max_mem (List.mem_map_of_mem (fun u => u.bbox.2.2.1) hm) _
    · show t.bbox.2.2.2 ≤ (rs.map (fun u => u.bbox.2.2.2)).foldl max r.bbox.2.2.2
      exact le_foldl_max_mem (List.mem_map_of_mem (fun u => u.bbox.2.2.2) hm) _

/-! ### Claim C1 -/

/-- C1: for every non-empty batch of records whose size-mismatch
validation passes, `uniformcrop` computes the shared crop rectangle
exactly as `wrect = (min x0, min y0, max x2, max y2)`,
`xcenter = floor(maxwidth/2)`, `xleftsize = max(0, xcenter - wrect.x0)`,
`xrightsize = min(maxwidth, wrect.x2 - xcenter)`,
`xhalfsize = max(xleftsize, xrightsize)`,
`croprect = (xcenter - xhalfsize, wrect.y0, xcenter + xhalfsize, wrect.y2)`,
and stores the batch maxima as the pre-crop sizes. -/
theorem uniformcrop_croprect_formula (r : Record) (rs : List Record)
    (hpass : sizeCheck (maxwidthOf r rs) (maxheightOf r rs)
      ((r :: rs).map Record.size) = some true) :
    uniformcrop (r :: rs) =
      UCResult.success (maxwidthOf r rs, maxheightOf r rs) (croprectFormula r rs) := by
  simp only [uniformcrop]
  rw [hpass]
  rfl

/-- C1 witness: the spec's concrete scenario, canvas 200x100 with
bounding boxes (40,10,160,90), (42,10,158,88), (38,12,162,90) yields
crop rectangle (38,10,162,90). -/
theorem uniformcrop_croprect_formula_witness :
    uniformcrop [⟨(40,10,160,90),(200,100)⟩, ⟨(42,10,158,88),(200,100)⟩,
        ⟨(38,12,162,90),(200,100)⟩] =
      UCResult.success (200, 100) (38, 10, 162, 90) := by
  have h := uniformcrop_croprect_formula ⟨(40,10,160,90),(200,100)⟩
      [⟨(42,10,158,88),(200,100)⟩, ⟨(38,12,162,90),(200,100)⟩]
      (by norm_num [sizeCheck, maxwidthOf, maxheightOf, MAXALLOWEDSIZEMISMATCH])
  exact h.trans (by decide)

/-! ### Claim C2 -/

/-- C2: for a non-empty batch with positive maximum cropped width and
height, the size-mismatch validation of `uniformcrop` succeeds iff every
record's cropped size is within the 5% tolerance of the maxima on both
axes, and when some record violates either bound `uniformcrop` returns
the failure result (which carries no crop rectangle and crops nothing). -/
theorem uniformcrop_validator_iff (r : Record) (rs : List Record)
    (hw : 0 < maxwidthOf r rs) (hh : 0 < maxheightOf r rs) :
    (sizeCheck (maxwidthOf r rs) (maxheightOf r rs) ((r :: rs).map Record.size) = some true ↔
      ∀ s ∈ (r :: rs).map Record.size,
        ((maxwidthOf r rs : ℚ) - s.1) / (maxwidthOf r rs : ℚ) ≤ 1 / 20 ∧
        ((maxheightOf r rs : ℚ) - s.2) / (maxheightOf r rs : ℚ) ≤ 1 / 20) ∧
    ((¬ ∀ s ∈ (r :: rs).map Record.size,
        ((maxwidthOf r rs : ℚ) - s.1) / (maxwidthOf r rs : ℚ) ≤ 1 / 20 ∧
        ((maxheightOf r rs : ℚ) - s.2) / (maxheightOf r rs : ℚ) ≤ 1 / 20) →
      uniformcrop (r :: rs) = UCResult.failure) := by
  have hiff := sizeCheck_eq_true_iff (Nat.pos_iff_ne_zero.mp hw)
    (Nat.pos_iff_ne_zero.mp hh) ((r :: rs).map Record.size)
  unfold MAXALLOWEDSIZEMISMATCH at hiff
  refine ⟨hiff, fun hnot => ?_⟩
  cases hsc : sizeCheck (maxwidthOf r rs) (maxheightOf r rs) ((r :: rs).map Record.size) with
  | none =>
    exact absurd hsc (sizeCheck_ne_none (Nat.pos_iff_ne_zero.mp hw)
      (Nat.pos_iff_ne_zero.mp hh) _)
  | some b =>
    cases b with
    | false => simp only [uniformcrop]; rw [hsc]
    | true => exact absurd (hiff.mp hsc) hnot

/-- C2 witness: the validator accepts the spec's concrete batch of
three 200x100 records. -/
theorem uniformcrop_validator_iff_witness :
    sizeCheck 200 100 [(200,100),(200,100),(200,100)] = some true := by
  exact (uniformcrop_validator_iff ⟨(40,10,160,90),(200,100)⟩
      [⟨(42,10,158,88),(200,100)⟩, ⟨(38,12,162,90),(200,100)⟩]
      (by decide) (by decide)).1.mpr
    (by norm_num [maxwidthOf, maxheightOf, List.mem_cons])

/-- If every bounding box has `0 ≤ x0` and `x2 ≤ maxwidth`, so does the
union rectangle. -/
theorem wrectOf_in_canvas (r : Record) (rs : List Record)
    (h0 : ∀ b ∈ (r :: rs).map Record.bbox, 0 ≤ b.1)
    (h2 : ∀ b ∈ (r :: rs).map Record.bbox, b.2.2.1 ≤ (maxwidthOf r rs : Int)) :
    0 ≤ (wrectOf r rs).1 ∧ (wrectOf r rs).2.2.1 ≤ (maxwidthOf r rs : Int) := by
  constructor
  · show (0 : Int) ≤ (rs.map (fun u => u.bbox.1)).foldl min r.bbox.1
    refine le_foldl_min (h0 _ (List.mem_map_of_mem _ (List.mem_cons_self r rs))) ?_
    intro b hb
    rcases List.mem_map.mp hb with ⟨u, hu, rfl⟩
    exact h0 _ (List.mem_map_of_mem _ (List.mem_cons_of_mem _ hu))
  · show (rs.map (fun u => u.bbox.2.2.1)).foldl max r.bbox.2.2.1 ≤ (maxwidthOf r rs : Int)
    refine foldl_max_le (h2 _ (List.mem_map_of_mem _ (List.mem_cons_self r rs))) ?_
    intro b hb
    rcases List.mem_map.mp hb with ⟨u, hu, rfl⟩
    exact h2 _ (List.mem_map_of_mem _ (List.mem_cons_of_mem _ hu))

theorem xcenterOf_nonneg (r : Record) (rs : List Record) : 0 ≤ xcenterOf r rs :=
  Int.natCast_nonneg _

theorem two_xcenterOf_le (r : Record) (rs : List Record) :
    2 * xcenterOf r rs ≤ (maxwidthOf r rs : Int) := by
  unfold xcenterOf
  exact_mod_cast (by omega : 2 * (maxwidthOf r rs / 2) ≤ maxwidthOf r rs)

/-! ### Claim C3 -/

/-- C3: for every non-empty batch whose bounding boxes lie within the
`(maxWidth, maxHeight)` canvas, a successful `uniformcrop` produces a
rectangle that is horizontally symmetric about `xcenter = floor(maxWidth/2)`
(`x0 + x2 = 2*xcenter`), contains every input bounding box, and has
`x0 ≤ min x0s`, `y0 = min y0s`, `x2 ≥ max x2s`, `y2 = max y2s`. -/
theorem uniformcrop_symm_contains (r : Record) (rs : List Record)
    (hbox : ∀ b ∈ (r :: rs).map Record.bbox,
      0 ≤ b.1 ∧ 0 ≤ b.2.1 ∧ b.2.2.1 ≤ (maxwidthOf r rs : Int) ∧
      b.2.2.2 ≤ (maxheightOf r rs : Int))
    (sz : Nat × Nat) (cr : Int × Int × Int × Int)
    (hsucc : uniformcrop (r :: rs) = UCResult.success sz cr) :
    cr.1 + cr.2.2.1 = 2 * xcenterOf r rs ∧
    (∀ b ∈ (r :: rs).map Record.bbox,
      cr.1 ≤ b.1 ∧ cr.2.1 ≤ b.2.1 ∧ b.2.2.1 ≤ cr.2.2.1 ∧ b.2.2.2 ≤ cr.2.2.2) ∧
    cr.1 ≤ (wrectOf r rs).1 ∧ cr.2.1 = (wrectOf r rs).2.1 ∧
    (wrectOf r rs).2.2.1 ≤ cr.2.2.1 ∧ cr.2.2.2 = (wrectOf r rs).2.2.2 := by
  obtain ⟨-, -, hcr⟩ := uniformcrop_success_inv hsucc
  subst hcr
  have hcanvas := wrectOf_in_canvas r rs (fun b hb => (hbox b hb).1)
    (fun b hb => (hbox b hb).2.2.1)
  have hxc0 := xcenterOf_nonneg r rs
  have hxc2 := two_xcenterOf_le r rs
  have hleft : xcenterOf r rs - (wrectOf r rs).1 ≤ xhalfsizeOf r rs :=
    le_trans (le_max_right 0 _) (le_max_left _ _)
  have hright : (wrectOf r rs).2.2.1 - xcenterOf r rs ≤ xhalfsizeOf r rs := by
    refine le_trans (le_min (by linarith [hcanvas.2]) (le_refl _)) (le_max_right _ _)
  simp only [croprectFormula]
  refine ⟨by ring, ?_, by linarith, by trivial, by linarith, by trivial⟩
  intro b hb
  obtain ⟨hb1, hb2, hb3, hb4⟩ := wrectOf_le r rs b hb
  exact ⟨by linarith, by linarith, by linarith, by linarith⟩

/-- C3 witness: horizontal symmetry on the spec's concrete scenario,
`38 + 162 = 2 * 100`. -/
theorem uniformcrop_symm_contains_witness :
    (38 : Int) + 162 = 2 * xcenterOf ⟨(40,10,160,90),(200,100)⟩
      [⟨(42,10,158,88),(200,100)⟩, ⟨(38,12,162,90),(200,100)⟩] :=
  (uniformcrop_symm_contains ⟨(40,10,160,90),(200,100)⟩
      [⟨(42,10,158,88),(200,100)⟩, ⟨(38,12,162,90),(200,100)⟩]
      (by decide) (200, 100) (38, 10, 162, 90)
      (by norm_num [uniformcrop, sizeCheck, maxwidthOf, maxheightOf, wrectOf,
        MAXALLOWEDSIZEMISMATCH])).1

/-! ### Claim C4 -/

/-- C4 counterexample: one record with canvas width 101 (odd) and
bounding box (0,0,101,10), entirely inside the canvas, yields the crop
rectangle (-1, 0, 101, 10): its left edge is one pixel outside the
0..maxWidth range, refuting `croprect.x0 ≥ 0`. -/
theorem uniformcrop_canvas_overflow_cex :
    (∀ b ∈ ([⟨(0,0,101,10),(101,10)⟩] : List Record).map Record.bbox,
      0 ≤ b.1 ∧ b.2.2.1 ≤ (maxwidthOf ⟨(0,0,101,10),(101,10)⟩ [] : Int)) ∧
    uniformcrop [⟨(0,0,101,10),(101,10)⟩] =
      UCResult.success (101, 10) (-1, 0, 101, 10) ∧
    ¬ (0 : Int) ≤ -1 := by
  refine ⟨by decide, ?_, by decide⟩
  norm_num [uniformcrop, sizeCheck, maxwidthOf, maxheightOf, wrectOf,
    MAXALLOWEDSIZEMISMATCH]

/-- C4 amended: under the same hypotheses (all boxes have `0 ≤ x0` and
`x2 ≤ maxWidth`), a successful crop satisfies `croprect.x2 ≤ maxWidth`
and `croprect.x0 ≥ -(maxWidth mod 2)`; in particular `croprect.x0 ≥ 0`
whenever `maxWidth` is even, but for odd `maxWidth` the left edge may
fall one pixel outside the canvas. -/
theorem uniformcrop_canvas_bounds (r : Record) (rs : List Record)
    (hbox : ∀ b ∈ (r :: rs).map Record.bbox,
      0 ≤ b.1 ∧ b.2.2.1 ≤ (maxwidthOf r rs : Int))
    (sz : Nat × Nat) (cr : Int × Int × Int × Int)
    (hsucc : uniformcrop (r :: rs) = UCResult.success sz cr) :
    cr.2.2.1 ≤ (maxwidthOf r rs : Int) ∧
    -((maxwidthOf r rs % 2 : Nat) : Int) ≤ cr.1 ∧
    (maxwidthOf r rs % 2 = 0 → 0 ≤ cr.1) := by
  obtain ⟨-, -, hcr⟩ := uniformcrop_success_inv hsucc
  subst hcr
  have hcanvas := wrectOf_in_canvas r rs (fun b hb => (hbox b hb).1)
    (fun b hb => (hbox b hb).2)
  have hxc0 := xcenterOf_nonneg r rs
  have hxc2 := two_xcenterOf_le r rs
  have hmod : ((maxwidthOf r rs % 2 : Nat) : Int) =
      (maxwidthOf r rs : Int) - 2 * xcenterOf r rs := by
    unfold xcenterOf
    push_cast
    omega
  have hhalf : xhalfsizeOf r rs ≤ (maxwidthOf r rs : Int) - xcenterOf r rs := by
    refine max_le (max_le (by linarith) (by linarith [hcanvas.1])) ?_
    exact le_trans (min_le_right _ _) (by linarith [hcanvas.2])
  simp only [croprectFormula]
  refine ⟨by linarith, by linarith, fun h0 => ?_⟩
  rw [h0] at hmod
  simp only [Nat.cast_zero] at hmod
  linarith

/-- C4 amended witness: in the concrete scenario (even canvas width
200) the crop rectangle stays within the canvas, `162 ≤ 200`. -/
theorem uniformcrop_canvas_bounds_witness :
    (162 : Int) ≤ ((200 : Nat) : Int) :=
  (uniformcrop_canvas_bounds ⟨(40,10,160,90),(200,100)⟩
      [⟨(42,10,158,88),(200,100)⟩, ⟨(38,12,162,90),(200,100)⟩]
      (by decide) (200, 100) (38, 10, 162, 90)
      (by norm_num [uniformcrop, sizeCheck, maxwidthOf, maxheightOf, wrectOf,
        MAXALLOWEDSIZEMISMATCH])).1

/-! ### Claim C10 -/

/-- C10 counterexample: a batch in which every record's cropped height
is 0 but whose first record's width (10) differs from the maximum width
(100) by more than 5%: the width ratio test fires before the height
ratio is ever divided, so `uniformcrop` returns the ordinary failure
result instead of raising `ZeroDivisionError`. -/
theorem uniformcrop_zero_height_cex :
    (∀ t ∈ ([⟨(0,0,0,0),(10,0)⟩, ⟨(0,0,0,0),(100,0)⟩] : List Record), t.size.2 = 0) ∧
    uniformcrop [⟨(0,0,0,0),(10,0)⟩, ⟨(0,0,0,0),(100,0)⟩] = UCResult.failure := by
  refine ⟨by decide, ?_⟩
  norm_num [uniformcrop, sizeCheck, maxwidthOf, maxheightOf, wrectOf,
    MAXALLOWEDSIZEMISMATCH]

/-- C10 amended: if every record's cropped width is 0, `uniformcrop`
raises `ZeroDivisionError`; if every record's cropped height is 0 it
raises `ZeroDivisionError` provided the first record's width is within
the 5% tolerance of the maximum width (otherwise the width test already
returns failure first). Hence positive maxima are an unstated
precondition for the validation to return a pass/fail answer. -/
theorem uniformcrop_zero_max_divzero (r : Record) (rs : List Record) :
    ((∀ t ∈ r :: rs, t.size.1 = 0) → uniformcrop (r :: rs) = UCResult.zeroDivError) ∧
    ((∀ t ∈ r :: rs, t.size.2 = 0) →
      ¬ ((maxwidthOf r rs : ℚ) - (r.size.1 : ℚ)) / (maxwidthOf r rs : ℚ) > 1 / 20 →
      uniformcrop (r :: rs) = UCResult.zeroDivError) := by
  constructor
  · intro h
    have hw : maxwidthOf r rs = 0 := by
      refine Nat.le_zero.mp (foldl_max_le (Nat.le_of_eq (h r (List.mem_cons_self r rs))) ?_)
      intro b hb
      rcases List.mem_map.mp hb with ⟨u, hu, rfl⟩
      exact Nat.le_of_eq (h u (List.mem_cons_of_mem _ hu))
    have hsc : sizeCheck (maxwidthOf r rs) (maxheightOf r rs)
        ((r :: rs).map Record.size) = none := by
      rw [hw]
      simp [sizeCheck]
    simp only [uniformcrop]
    rw [hsc]
  · intro h hratio
    have hh : maxheightOf r rs = 0 := by
      refine Nat.le_zero.mp (foldl_max_le (Nat.le_of_eq (h r (List.mem_cons_self r rs))) ?_)
      intro b hb
      rcases List.mem_map.mp hb with ⟨u, hu, rfl⟩
      exact Nat.le_of_eq (h u (List.mem_cons_of_mem _ hu))
    by_cases hw : maxwidthOf r rs = 0
    · have hsc : sizeCheck (maxwidthOf r rs) (maxheightOf r rs)
          ((r :: rs).map Record.size) = none := by
        rw [hw]
        simp [sizeCheck]
      simp only [uniformcrop]
      rw [hsc]
    · have hsc : sizeCheck (maxwidthOf r rs) (maxheightOf r rs)
          ((r :: rs).map Record.size) = none := by
        simp only [List.map_cons, sizeCheck, MAXALLOWEDSIZEMISMATCH, if_neg hw]
        rw [if_neg hratio, if_pos hh]
      simp only [uniformcrop]
      rw [hsc]

/-- C10 amended witness: a single record with cropped size (0, 5)
drives the width check into a division by zero. -/
theorem uniformcrop_zero_max_divzero_witness :
    uniformcrop [⟨(0,0,0,0),(0,5)⟩] = UCResult.zeroDivError :=
  (uniformcrop_zero_max_divzero ⟨(0,0,0,0),(0,5)⟩ []).1 (by decide)

/-! ### Physical size calculator -/

/-- `Impostor.calcimpostorsize`, lines 91-104: converts the crop
rectangle into physical units.  `framesize` is `self.framesize` (the
`--width`/`--height` floats, modelled as rationals), `sizes` is
`self.sizes` (the pre-crop pixel maxima) and `croprect` is
`self.croprect`.  Division by a zero size is `ℚ` division (the model is
only used where `uniformcrop` guarantees positive sizes). -/
def calcimpostorsize (framesize : ℚ × ℚ) (sizes : Nat × Nat)
    (croprect : Int × Int × Int × Int) : ℚ × ℚ :=
  let metersperpixel : ℚ × ℚ :=
    (framesize.1 / (sizes.1 : ℚ), framesize.2 / (sizes.2 : ℚ))
  let croppedsize : Int × Int :=
    (croprect.2.2.1 - croprect.1, croprect.2.2.2 - croprect.2.1)
  (metersperpixel.1 * (croppedsize.1 : ℚ), metersperpixel.2 * (croppedsize.2 : ℚ))

/-- The physical-size call of `main`, lines 185-191: the size is only
computed after `uniformcrop` returned `True`, with the state
(`self.sizes`, `self.croprect`) that the successful run stored;
every other outcome of `uniformcrop` aborts the run. -/
def pipelineCalc (records : List Record) (framesize : ℚ × ℚ) : Option (ℚ × ℚ) :=
  match uniformcrop records with
  | UCResult.success sz cr => some (calcimpostorsize framesize sz cr)
  | _ => none

/-! ### Claim C6 -/

/-- C6: for positive pre-crop pixel maxima, `calcimpostorsize` returns
exactly `((fw/maxWidth)*(x2-x0), (fh/maxHeight)*(y2-y0))`. -/
theorem calcimpostorsize_formula (framesize : ℚ × ℚ) (sizes : Nat × Nat)
    (croprect : Int × Int × Int × Int)
    (_hw : 0 < sizes.1) (_hh : 0 < sizes.2) :
    calcimpostorsize framesize sizes croprect =
      (framesize.1 / (sizes.1 : ℚ) * ((croprect.2.2.1 : ℚ) - (croprect.1 : ℚ)),
       framesize.2 / (sizes.2 : ℚ) * ((croprect.2.2.2 : ℚ) - (croprect.2.1 : ℚ))) := by
  simp only [calcimpostorsize]
  push_cast
  rfl

/-- C6 witness: frame size (6.0, 3.0) meters, pre-crop sizes (200, 100)
pixels and crop rectangle (38, 10, 162, 90) give (3.72, 2.4) meters. -/
theorem calcimpostorsize_formula_witness :
    calcimpostorsize (6, 3) (200, 100) (38, 10, 162, 90) = (93/25, 12/5) := by
  rw [calcimpostorsize_formula (6, 3) (200, 100) (38, 10, 162, 90)
    (by decide) (by decide)]
  norm_num

/-! ### Claim C7 -/

/-- C7: whenever the pipeline reaches the physical size calculation it
does so with a successful `uniformcrop` whose stored pixel maxima are
both positive, so `calcimpostorsize` is never evaluated with a zero
divisor (degenerate batches end in `zeroDivError` or `failure` and
produce no size). -/
theorem pipelineCalc_pos_sizes (records : List Record) (framesize : ℚ × ℚ)
    (out : ℚ × ℚ) (h : pipelineCalc records framesize = some out) :
    ∃ sz cr, uniformcrop records = UCResult.success sz cr ∧
      0 < sz.1 ∧ 0 < sz.2 ∧ out = calcimpostorsize framesize sz cr := by
  cases records with
  | nil => simp [pipelineCalc, uniformcrop] at h
  | cons r rs =>
    cases hu : uniformcrop (r :: rs) with
    | success sz cr =>
      obtain ⟨hpass, -, -⟩ := uniformcrop_success_inv hu
      have hpos : 0 < maxwidthOf r rs ∧ 0 < maxheightOf r rs := by
        rw [List.map_cons] at hpass
        exact sizeCheck_cons_true_pos hpass
      obtain ⟨-, hsz, -⟩ := uniformcrop_success_inv hu
      simp only [pipelineCalc, hu, Option.some.injEq] at h
      refine ⟨sz, cr, rfl, ?_, ?_, h.symm⟩
      · rw [hsz]; exact hpos.1
      · rw [hsz]; exact hpos.2
    | emptyError => simp [pipelineCalc, hu] at h
    | zeroDivError => simp [pipelineCalc, hu] at h
    | failure => simp [pipelineCalc, hu] at h

/-- C7 witness: on the spec's concrete scenario the pipeline produces a
size, and the divisors it used were positive. -/
theorem pipelineCalc_pos_sizes_witness :
    ∃ sz cr, uniformcrop
        [(⟨(40,10,160,90),(200,100)⟩ : Record), ⟨(42,10,158,88),(200,100)⟩,
         ⟨(38,12,162,90),(200,100)⟩] = UCResult.success sz cr ∧
      0 < sz.1 ∧ 0 < sz.2 ∧
      (93/25, 12/5) = calcimpostorsize (6, 3) sz cr :=
  pipelineCalc_pos_sizes _ (6, 3) (93/25, 12/5)
    (by norm_num [pipelineCalc, uniformcrop, sizeCheck, maxwidthOf, maxheightOf,
      wrectOf, MAXALLOWEDSIZEMISMATCH, calcimpostorsize])

/-! ### Raster model and the compositor -/

/-- An RGBA pixel. -/
abbrev Pixel : Type := Nat × Nat × Nat × Nat

/-- A PIL RGBA raster: a size and a pixel function (pixels outside the
size are irrelevant). -/
structure Image where
  width : Nat
  height : Nat
  pix : Nat → Nat → Pixel

/-- `PIL.Image.new("RGBA", (w, h))`: a fully transparent canvas, every
pixel `(0,0,0,0)`. -/
def Image.new (w h : Nat) : Image :=
  ⟨w, h, fun _ _ => (0, 0, 0, 0)⟩

/-- `base.paste(im, (ox, oy))` without a mask: the region of `base`
covered by `im` is overwritten with the pixels of `im`, alpha channel
included (no blending against the background). -/
def Image.paste (base im : Image) (ox oy : Nat) : Image :=
  { base with pix := fun x y =>
      if ox ≤ x ∧ x < ox + im.width ∧ oy ≤ y ∧ y < oy + im.height then
        im.pix (x - ox) (y - oy)
      else base.pix x y }

/-- `Impostor.generateimpostor`, lines 145-156: a transparent RGBA
canvas of size `(imagesize[0], imagesize[1]*cnt)`, into which the n-th
cropped image, resized to `imagesize`, is pasted at `(0, imagesize[1]*n)`.
The resampling filter (`PIL.Image.LANCZOS`) is an opaque raster
operation of the PIL collaborator, so `generateimpostor` is parametric
in the resize function, exactly as the source is parametric in the
filter argument. -/
def generateimpostor (resample : Image → Nat → Nat → Image)
    (croppedimages : List Image) (imagesize : Nat × Nat) : Image :=
  let cnt := croppedimages.length
  let composite := Image.new imagesize.1 (imagesize.2 * cnt)
  (List.range cnt).foldl
    (fun comp n =>
      comp.paste (resample (croppedimages.getD n (Image.new 0 0))
        imagesize.1 imagesize.2) 0 (imagesize.2 * n))
    composite

theorem foldl_paste_width (g : Nat → Image) (off : Nat → Nat)
    (l : List Nat) (base : Image) :
    (l.foldl (fun c n => c.paste (g n) 0 (off n)) base).width = base.width := by
  induction l generalizing base with
  | nil => rfl
  | cons m ms ih => exact ih _

theorem foldl_paste_height (g : Nat → Image) (off : Nat → Nat)
    (l : List Nat) (base : Image) :
    (l.foldl (fun c n => c.paste (g n) 0 (off n)) base).height = base.height := by
  induction l generalizing base with
  | nil => rfl
  | cons m ms ih => exact ih _

/-- Pixels of the band of the n-th paste, for pastes at rows `th * n`
of images of exact size `(tw, th)`. -/
theorem foldl_paste_band (g : Nat → Image) (tw th : Nat)
    (hg : ∀ n, (g n).width = tw ∧ (g n).height = th)
    (base : Image) (m k x y : Nat) (hk : k < m) (hx : x < tw) (hy : y < th) :
    ((List.range m).foldl (fun c n => c.paste (g n) 0 (th * n)) base).pix
        x (th * k + y) = (g k).pix x y := by
  induction m with
  | zero => cases hk
  | succ m ih =>
    rw [List.range_succ, List.foldl_append]
    simp only [List.foldl_cons, List.foldl_nil]
    rcases Nat.lt_succ_iff_lt_or_eq.mp hk with hkm | rfl
    · have hout : ¬ (0 ≤ x ∧ x < 0 + (g m).width ∧ th * m ≤ th * k + y ∧
          th * k + y < th * m + (g m).height) := by
        rintro ⟨-, -, hband, -⟩
        have hlt : th * k + y < th * (k + 1) := by
          rw [Nat.mul_succ]; omega
        exact absurd hband (Nat.not_le.mpr
          (lt_of_lt_of_le hlt (Nat.mul_le_mul_left th hkm)))
      show (Image.paste _ _ 0 (th * m)).pix x (th * k + y) = _
      simp only [Image.paste, if_neg hout]
      exact ih hkm
    · have hin : 0 ≤ x ∧ x < 0 + (g k).width ∧ th * k ≤ th * k + y ∧
          th * k + y < th * k + (g k).height := by
        refine ⟨Nat.zero_le x, ?_, Nat.le_add_right _ _, ?_⟩
        · rw [(hg k).1]; omega
        · rw [(hg k).2]; omega
      show (Image.paste _ _ 0 (th * k)).pix x (th * k + y) = _
      simp only [Image.paste, if_pos hin, Nat.sub_zero, Nat.add_sub_cancel_left]

/-! ### Claim C5 -/

/-- C5: for every list of cropped images and tile size `(tw, th)`,
`generateimpostor` (parametric in the resize operation, which returns a
raster of the requested size) produces a canvas of width `tw` and
height `th * count` whose k-th horizontal band of rows
`[k*th, (k+1)*th)` carries exactly the pixels — alpha included — of the
k-th cropped image resized to `(tw, th)`; the canvas starts fully
transparent and images are pasted, not flattened. -/
theorem generateimpostor_bands (resample : Image → Nat → Nat → Image)
    (imgs : List Image) (tw th : Nat)
    (hres : ∀ img w h, (resample img w h).width = w ∧ (resample img w h).height = h)
    (k x y : Nat) (hk : k < imgs.length) (hx : x < tw) (hy : y < th) :
    (generateimpostor resample imgs (tw, th)).width = tw ∧
    (generateimpostor resample imgs (tw, th)).height = th * imgs.length ∧
    (Image.new tw (th * imgs.length)).pix x (th * k + y) = (0, 0, 0, 0) ∧
    (generateimpostor resample imgs (tw, th)).pix x (th * k + y) =
      (resample (imgs.getD k (Image.new 0 0)) tw th).pix x y := by
  refine ⟨foldl_paste_width _ _ _ _, foldl_paste_height _ _ _ _, rfl, ?_⟩
  exact foldl_paste_band
    (fun n => resample (imgs.getD n (Image.new 0 0)) tw th) tw th
    (fun n => hres (imgs.getD n (Image.new 0 0)) tw th)
    (Image.new tw (th * imgs.length)) imgs.length k x y hk hx hy

/-- A trivial resize operation used to instantiate the compositor
theorem: it returns a raster of the requested size with constant
pixels. -/
def constResample : Image → Nat → Nat → Image :=
  fun _ w h => ⟨w, h, fun _ _ => (1, 2, 3, 4)⟩

/-- C5 witness: one 3x3 source image composited at tile size (2,2):
the canvas is 2x2, and its pixel (0,0) is the resized image's pixel
(0,0). -/
theorem generateimpostor_bands_witness :
    (generateimpostor constResample [Image.new 3 3] (2, 2)).width = 2 ∧
    (generateimpostor constResample [Image.new 3 3] (2, 2)).height = 2 * 1 ∧
    (Image.new 2 (2 * 1)).pix 0 (2 * 0 + 0) = (0, 0, 0, 0) ∧
    (generateimpostor constResample [Image.new 3 3] (2, 2)).pix 0 (2 * 0 + 0) =
      (constResample (([Image.new 3 3]).getD 0 (Image.new 0 0)) 2 2).pix 0 0 :=
  generateimpostor_bands constResample [Image.new 3 3] 2 2
    (fun _ _ _ => ⟨rfl, rfl⟩) 0 0 0 (by decide) (by decide) (by decide)

/-! ### Argument and main-flow model -/

/-- The parsed command line of `parseargs`, lines 158-170: physical
frame width and height (floats, modelled as rationals), the `--rez`
output width, the `--faces` and `--form` options (accepted but unused
by the core), the verbose flag and the input file list. -/
structure Args where
  width : ℚ
  height : ℚ
  rez : Nat
  faces : String
  form : String
  verbose : Bool
  files : List String

/-- The defaults of `parseargs`: `--width 6.0 --height 3.0 --rez 64
--faces 8 --form STAR`. -/
def defaultArgs (files : List String) : Args :=
  ⟨6, 3, 64, "8", "STAR", false, files⟩

/-- The composite generation of `main`, line 189:
`finalimage = imp.generateimpostor((128,64))` — the tile size is the
hard-coded constant `(128, 64)`; no field of `args` reaches the
compositor. -/
def mainComposite (resample : Image → Nat → Nat → Image) (_args : Args)
    (croppedimages : List Image) : Image :=
  generateimpostor resample croppedimages (128, 64)

/-! ### Claim C8 -/

/-- C8: two runs of the reference flow on the same inputs that differ
only in `--rez` produce the identical composite image: `main` passes
the fixed tile size (128, 64) to the compositor and never reads
`args.rez`. -/
theorem mainComposite_ignores_rez (resample : Image → Nat → Nat → Image)
    (args : Args) (croppedimages : List Image) (rez1 rez2 : Nat) :
    mainComposite resample { args with rez := rez1 } croppedimages =
      mainComposite resample { args with rez := rez2 } croppedimages := rfl

/-! ### Naming helper

Python strings are modelled as their character sequences (`List Char`);
`String.data` turns a literal into that model. -/

/-- `stringcommon(a, b)`, lines 27-36: the number of characters `a` and
`b` have in common from the beginning (the index of the first mismatch,
or the shorter length). -/
def stringcommon : List Char → List Char → Nat
  | [], _ => 0
  | _ :: _, [] => 0
  | a :: as, b :: bs => if a = b then stringcommon as bs + 1 else 0

/-- `stringscommon(lst)`, lines 38-46: `None` for an empty list,
otherwise `lst[0][0:cnt]` where `cnt` is the minimum of
`stringcommon(lst[0], s)` over all members `s`. -/
def stringscommon (lst : List (List Char)) : Option (List Char) :=
  match lst with
  | [] => none
  | x :: rest =>
    let cnt := (rest.map (fun s => stringcommon x s)).foldl min (stringcommon x x)
    some (x.take cnt)

/-- Python `s.split('/')`: split on every slash, keeping empty
segments; the result is never the empty list. -/
def splitSlash : List Char → List (List Char)
  | [] => [[]]
  | c :: cs =>
    match splitSlash cs with
    | [] => [[]]
    | r :: rs => if c = '/' then [] :: r :: rs else (c :: r) :: rs

/-- Python `'/'.join(parts)`. -/
def joinSlash : List (List Char) → List Char
  | [] => []
  | [p] => p
  | p :: ps => p ++ '/' :: joinSlash ps

/-- `Impostor.outfilename`, lines 75-89: with no explicit name, take the
common leading part of the input filenames, prefix the last
slash-separated segment with `"impostor-"`, rejoin and append `".png"`.
`none` models the `AttributeError` of calling `.split` on the `None`
that `stringscommon` returns for an empty file list. -/
def outfilename (filenames : List (List Char)) (name : Option (List Char)) :
    Option (List Char) :=
  match name with
  | some s => some (s ++ ".png".data)
  | none =>
    match stringscommon filenames with
    | none => none
    | some s =>
      let sparts := splitSlash s
      some (joinSlash (sparts.dropLast ++
        ["impostor-".data ++ sparts.getLastD []]) ++ ".png".data)

theorem stringcommon_self (a : List Char) : stringcommon a a = a.length := by
  induction a with
  | nil => rfl
  | cons c cs ih => simp [stringcommon, ih]

theorem take_stringcommon_eq (a : List Char) :
    ∀ b : List Char, a.take (stringcommon a b) = b.take (stringcommon a b) := by
  induction a with
  | nil => intro b; simp [stringcommon]
  | cons c cs ih =>
    intro b
    cases b with
    | nil => simp [stringcommon]
    | cons d ds =>
      by_cases h : c = d
      · subst h
        simp [stringcommon, List.take_succ_cons, ih ds]
      · simp [stringcommon, h]

theorem take_eq_of_le_stringcommon {a b : List Char} {n : Nat}
    (h : n ≤ stringcommon a b) : a.take n = b.take n := by
  have h1 : a.take n = (a.take (stringcommon a b)).take n := by
    rw [List.take_take, Nat.min_eq_left h]
  rw [h1, take_stringcommon_eq a b, List.take_take, Nat.min_eq_left h]

theorem stringcommon_ge_of_common (p : List Char) :
    ∀ a b : List Char, p <+: a → p <+: b → p.length ≤ stringcommon a b := by
  induction p with
  | nil => intro a b _ _; exact Nat.zero_le _
  | cons c ps ih =>
    intro a b ha hb
    obtain ⟨ta, rfl⟩ := ha
    obtain ⟨tb, rfl⟩ := hb
    simp only [List.cons_append, stringcommon, if_pos rfl, List.length_cons]
    exact Nat.succ_le_succ (ih _ _ ⟨ta, rfl⟩ ⟨tb, rfl⟩)

/-! ### Claim C9 -/

/-- C9: for every non-empty list of input filenames, the default output
name is built from the longest common leading character sequence of all
the filenames — `stringscommon` returns a common leading part of every
filename and no common leading part is longer — with the last
slash-separated segment prefixed by `"impostor-"` and `".png"`
appended; in particular `["/a/shot_01.png", "/a/shot_02.png"]` gives
`"/a/impostor-shot_0.png"`. -/
theorem outfilename_common_longest :
    (∀ (x : List Char) (rest : List (List Char)),
      ∃ s, stringscommon (x :: rest) = some s ∧
        (∀ t ∈ x :: rest, s <+: t) ∧
        (∀ p : List Char, (∀ t ∈ x :: rest, p <+: t) → p.length ≤ s.length) ∧
        outfilename (x :: rest) none =
          some (joinSlash ((splitSlash s).dropLast ++
            ["impostor-".data ++ (splitSlash s).getLastD []]) ++ ".png".data)) ∧
    outfilename ["/a/shot_01.png".data, "/a/shot_02.png".data] none =
      some "/a/impostor-shot_0.png".data := by
  constructor
  · intro x rest
    refine ⟨x.take ((rest.map (fun s => stringcommon x s)).foldl min (stringcommon x x)),
      rfl, ?_, ?_, rfl⟩
    · intro t ht
      rcases List.mem_cons.mp ht with rfl | hm
      · exact ⟨t.drop _, List.take_append_drop _ _⟩
      · have hle : (rest.map (fun s => stringcommon x s)).foldl min (stringcommon x x) ≤
            stringcommon x t :=
          foldl_min_le_mem (List.mem_map_of_mem (fun s => stringcommon x s) hm) _
        rw [take_eq_of_le_stringcommon hle]
        exact ⟨t.drop _, List.take_append_drop _ _⟩
    · intro p hp
      have hx := hp x (List.mem_cons_self x rest)
      have hcnt : p.length ≤
          (rest.map (fun s => stringcommon x s)).foldl min (stringcommon x x) := by
        refine le_foldl_min (stringcommon_ge_of_common p x x hx hx) ?_
        intro b hb
        rcases List.mem_map.mp hb with ⟨t, ht, rfl⟩
        exact stringcommon_ge_of_common p x t hx (hp t (List.mem_cons_of_mem _ ht))
      have hlen : (x.take ((rest.map (fun s => stringcommon x s)).foldl min
          (stringcommon x x))).length =
          (rest.map (fun s => stringcommon x s)).foldl min (stringcommon x x) := by
        rw [List.length_take, Nat.min_eq_left]
        calc (rest.map (fun s => stringcommon x s)).foldl min (stringcommon x x)
            ≤ stringcommon x x := foldl_min_le_init _ _
          _ = x.length := stringcommon_self x
      rw [hlen]
      exact hcnt
  · decide

/-- C9 witness: on the concrete inputs, `stringscommon` returns a common
leading part of the first filename. -/
theorem outfilename_common_longest_witness :
    ∃ s, stringscommon ["/a/shot_01.png".data, "/a/shot_02.png".data] = some s ∧
      s <+: "/a/shot_01.png".data := by
  obtain ⟨s, h1, h2, -, -⟩ :=
    outfilename_common_longest.1 "/a/shot_01.png".data ["/a/shot_02.png".data]
  exact ⟨s, h1, h2 _ (List.mem_cons_self _ _)⟩

end ImpostorMaker
